import Mathlib

/-!
# Verification of `cli.py` (speechT command-line front end)

A shallow embedding of the configuration-resolution-and-dispatch core of
`cli.py`: the argparse schema (base parser shared by the four subcommands,
plus the per-command extensions), the `parsed` lazy property that derives
`run_type` and `run_train_dir`, the `command_executor` lazy property that
looks the command up in the constructor dictionary, `_ensure_directories`,
and `run`.

Modelling notes, all relative to `src/cli.py`:

* An `argparse` error (invalid subcommand choice, unparseable `type=int`
  value, a flag that expects a value reaching the end of the argument list
  or a `--`-prefixed token) makes `parse_args` call `sys.exit`; we model it
  as `PyError.systemExit` with the diagnostic message.
* Python `int()` conversion is modelled by `pyInt?` below.  Python
  `float()` conversion is not modelled: a `type=float` option keeps its raw
  token.  No claim depends on the value of a float-typed option, only on
  whether parsing as a whole succeeds, and every argument list appearing in
  a theorem below keeps float-typed options at their defaults.
* argparse prefix abbreviation (`--batch` for `--batch-size`) and the
  `--flag=value` form are not modelled; no claim mentions them.
* Attribute access on the parsed namespace is partial: when no subcommand
  is given, argparse produces `Namespace(command=None)` carrying none of
  the base options, so accessing e.g. `parsed.train_dir` raises
  `AttributeError`.  Accessors therefore return `Except PyError`.
* The `@lazy` decorator (the `lazy` PyPI package) caches the property's
  value on first successful computation; an exception is not cached.  We
  model the pair of lazy properties by explicit state passing through
  `CLIState`.
* The filesystem is modelled as the list of existing paths; `os.makedirs`
  adds every missing ancestor (split on `/`) and the path itself.
-/

namespace SpeechT

/-- The shared options of `_create_base_parser` with their argparse
defaults (`set_defaults(feature_type='power')`, `default=64`, `'noname'`,
`'data'`, `'train'`, `'log'`). -/
structure BaseOpts where
  feature_type : String := "power"
  batch_size : Int := 64
  run_name : String := "noname"
  data_dir : String := "data"
  train_dir : String := "train"
  log_dir : String := "log"
deriving Repr, DecidableEq

/-- Options added by `_add_training_parser`.  Float-typed options keep
their raw token (see the modelling notes). -/
structure TrainOpts where
  learning_rate : String := "1e-3"
  reset_learning_rate : Bool := false
  learning_rate_decay_factor : String := "0"
  momentum : String := "0.9"
  max_gradient_norm : String := "5.0"
  limit_training_set : Int := 0
  steps_per_checkpoint : Int := 1000
deriving Repr, DecidableEq

/-- Options added by `_add_evaluation_parser`
(`set_defaults(dataset='test')`; `--no-save` is `store_false`, so
`should_save` defaults to true). -/
structure EvalOpts where
  dataset : String := "test"
  should_save : Bool := true
  epoch_count : Int := 1
  language_model : Option String := none
deriving Repr, DecidableEq

/-- Options added by `_add_recording_parser`. -/
structure RecordOpts where
  input_size : Int := 128
  language_model : Option String := none
deriving Repr, DecidableEq

/-- Options added by `_add_parameter_search_parser`. -/
structure SearchOpts where
  population_size : Int := 10
  noise_std : String := "0.5"
  use_ui : Bool := false
  language_model : Option String := none
deriving Repr, DecidableEq

/-- The command-specific part of a parsed namespace: which subparser ran,
with its options. -/
inductive CmdOpts
  | train (o : TrainOpts)
  | evaluate (o : EvalOpts)
  | record (o : RecordOpts)
  | search (o : SearchOpts)
deriving Repr, DecidableEq

/-- The argparse `Namespace` produced by `parser.parse_args()`.  With no
subcommand, argparse yields `Namespace(command=None)`: the base options
and the command-specific options are attributes only when a subparser ran,
hence the `Option`s. -/
structure NS where
  command : Option String := none
  base : Option BaseOpts := none
  extra : Option CmdOpts := none
deriving Repr, DecidableEq

/-- The Python exceptions the modelled code can raise: `SystemExit` from
an argparse diagnostic, `AttributeError` from a missing namespace
attribute, `KeyError` from the executor dictionary lookup. -/
inductive PyError
  | systemExit (msg : String)
  | attributeError
  | keyError
deriving Repr, DecidableEq

/-- `v.startswith('--')`: whether a token is option-like.  argparse never
consumes such a token as the value of a flag that expects an argument. -/
def isDashDash (v : String) : Bool :=
  match v.data with
  | '-' :: '-' :: _ => true
  | _ => false

/-- Accumulate decimal digits, most significant first. -/
def digitsToNat : List Char → Nat → Nat
  | [], acc => acc
  | c :: cs, acc => digitsToNat cs (acc * 10 + (c.toNat - 48))

/-- A non-empty all-digit character list, as a number. -/
def natOfDigits? (cs : List Char) : Option Nat :=
  if cs ≠ [] ∧ cs.all (fun c => c.isDigit) then some (digitsToNat cs 0) else none

/-- Python `int(v)` for a `type=int` argparse option: an optional sign
followed by decimal digits (surrounding whitespace and underscore
separators are not modelled; no claim uses them). -/
def pyInt? (v : String) : Option Int :=
  match v.data with
  | '-' :: cs => (natOfDigits? cs).map fun n => -(n : Int)
  | '+' :: cs => (natOfDigits? cs).map fun n => (n : Int)
  | cs => (natOfDigits? cs).map fun n => (n : Int)

/-- One command-specific argparse action: `store_const`-style actions that
only transform the options record, `type=int` actions, `type=str` actions,
and `type=float` actions (raw token kept, see the modelling notes). -/
inductive ExtraSpec (ε : Type)
  | constAct (upd : ε → ε)
  | intAct (upd : Int → ε → ε)
  | strAct (upd : String → ε → ε)
  | floatAct (upd : String → ε → ε)

/-- The flag loop of one subparser: the seven base-parser flags (shared by
every command through `parents=[self.base_parser]`) plus the
command-specific flags given by `extras`.  A repeated flag overwrites the
earlier value, as argparse `setattr` does.  A flag with an argument
refuses a `--`-prefixed token as its value, as argparse does. -/
def parseCmdLoop {ε : Type} (extras : String → Option (ExtraSpec ε)) :
    List String → BaseOpts → ε → Except PyError (BaseOpts × ε)
  | [], b, x => .ok (b, x)
  | flag :: rest, b, x =>
    if flag = "--mfcc" then
      parseCmdLoop extras rest { b with feature_type := "mfcc" } x
    else if flag = "--power" then
      parseCmdLoop extras rest { b with feature_type := "power" } x
    else if flag = "--batch-size" then
      match rest with
      | [] => .error (.systemExit "argument --batch-size: expected one argument")
      | v :: rest2 =>
        if isDashDash v then
          .error (.systemExit "argument --batch-size: expected one argument")
        else
          match pyInt? v with
          | none => .error (.systemExit ("argument --batch-size: invalid int value: " ++ v))
          | some n => parseCmdLoop extras rest2 { b with batch_size := n } x
    else if flag = "--run-name" then
      match rest with
      | [] => .error (.systemExit "argument --run-name: expected one argument")
      | v :: rest2 =>
        if isDashDash v then
          .error (.systemExit "argument --run-name: expected one argument")
        else parseCmdLoop extras rest2 { b with run_name := v } x
    else if flag = "--data-dir" then
      match rest with
      | [] => .error (.systemExit "argument --data-dir: expected one argument")
      | v :: rest2 =>
        if isDashDash v then
          .error (.systemExit "argument --data-dir: expected one argument")
        else parseCmdLoop extras rest2 { b with data_dir := v } x
    else if flag = "--train-dir" then
      match rest with
      | [] => .error (.systemExit "argument --train-dir: expected one argument")
      | v :: rest2 =>
        if isDashDash v then
          .error (.systemExit "argument --train-dir: expected one argument")
        else parseCmdLoop extras rest2 { b with train_dir := v } x
    else if flag = "--log-dir" then
      match rest with
      | [] => .error (.systemExit "argument --log-dir: expected one argument")
      | v :: rest2 =>
        if isDashDash v then
          .error (.systemExit "argument --log-dir: expected one argument")
        else parseCmdLoop extras rest2 { b with log_dir := v } x
    else
      match extras flag with
      | some (.constAct upd) => parseCmdLoop extras rest b (upd x)
      | some (.intAct upd) =>
        match rest with
        | [] => .error (.systemExit ("argument " ++ flag ++ ": expected one argument"))
        | v :: rest2 =>
          if isDashDash v then
            .error (.systemExit ("argument " ++ flag ++ ": expected one argument"))
          else
            match pyInt? v with
            | none => .error (.systemExit ("argument " ++ flag ++ ": invalid int value: " ++ v))
            | some n => parseCmdLoop extras rest2 b (upd n x)
      | some (.strAct upd) =>
        match rest with
        | [] => .error (.systemExit ("argument " ++ flag ++ ": expected one argument"))
        | v :: rest2 =>
          if isDashDash v then
            .error (.systemExit ("argument " ++ flag ++ ": expected one argument"))
          else parseCmdLoop extras rest2 b (upd v x)
      | some (.floatAct upd) =>
        match rest with
        | [] => .error (.systemExit ("argument " ++ flag ++ ": expected one argument"))
        | v :: rest2 =>
          if isDashDash v then
            .error (.systemExit ("argument " ++ flag ++ ": expected one argument"))
          else parseCmdLoop extras rest2 b (upd v x)
      | none => .error (.systemExit ("unrecognized arguments: " ++ flag))

/-- The flags `_add_training_parser` adds on top of the base parser. -/
def trainExtras (flag : String) : Option (ExtraSpec TrainOpts) :=
  if flag = "--learning-rate" then
    some (.floatAct fun v t => { t with learning_rate := v })
  else if flag = "--reset-learning-rate" then
    some (.constAct fun t => { t with reset_learning_rate := true })
  else if flag = "--learning-rate-decay-factor" then
    some (.floatAct fun v t => { t with learning_rate_decay_factor := v })
  else if flag = "--momentum" then
    some (.floatAct fun v t => { t with momentum := v })
  else if flag = "--max-gradient-norm" then
    some (.floatAct fun v t => { t with max_gradient_norm := v })
  else if flag = "--limit-training-set" then
    some (.intAct fun n t => { t with limit_training_set := n })
  else if flag = "--steps-per-checkpoint" then
    some (.intAct fun n t => { t with steps_per_checkpoint := n })
  else none

/-- The flags `_add_evaluation_parser` adds on top of the base parser
(`--dev`/`--test` are `store_const` on dest `dataset`, `--no-save` is
`store_false` on dest `should_save`, plus `_add_language_model_argument`). -/
def evalExtras (flag : String) : Option (ExtraSpec EvalOpts) :=
  if flag = "--dev" then
    some (.constAct fun o => { o with dataset := "dev" })
  else if flag = "--test" then
    some (.constAct fun o => { o with dataset := "test" })
  else if flag = "--no-save" then
    some (.constAct fun o => { o with should_save := false })
  else if flag = "--epoch-count" then
    some (.intAct fun n o => { o with epoch_count := n })
  else if flag = "--language-model" then
    some (.strAct fun v o => { o with language_model := some v })
  else none

/-- The flags `_add_recording_parser` adds on top of the base parser. -/
def recordExtras (flag : String) : Option (ExtraSpec RecordOpts) :=
  if flag = "--input-size" then
    some (.intAct fun n o => { o with input_size := n })
  else if flag = "--language-model" then
    some (.strAct fun v o => { o with language_model := some v })
  else none

/-- The flags `_add_parameter_search_parser` adds on top of the base
parser. -/
def searchExtras (flag : String) : Option (ExtraSpec SearchOpts) :=
  if flag = "--population-size" then
    some (.intAct fun n o => { o with population_size := n })
  else if flag = "--noise-std" then
    some (.floatAct fun v o => { o with noise_std := v })
  else if flag = "--ui" then
    some (.constAct fun o => { o with use_ui := true })
  else if flag = "--language-model" then
    some (.strAct fun v o => { o with language_model := some v })
  else none

/-- `self.parser.parse_args()` on the given argument list (`sys.argv[1:]`).
The first token selects the subcommand registered with
`add_subparsers(dest='command')`; an unknown first token is an argparse
"invalid choice" diagnostic; an empty list yields `Namespace(command=None)`
with no base attributes. -/
def parse_args : List String → Except PyError NS
  | [] => .ok {}
  | c :: rest =>
    if c = "train" then
      match parseCmdLoop trainExtras rest {} {} with
      | .error e => .error e
      | .ok (b, t) => .ok { command := some "train", base := some b, extra := some (.train t) }
    else if c = "evaluate" then
      match parseCmdLoop evalExtras rest {} {} with
      | .error e => .error e
      | .ok (b, o) => .ok { command := some "evaluate", base := some b, extra := some (.evaluate o) }
    else if c = "record" then
      match parseCmdLoop recordExtras rest {} {} with
      | .error e => .error e
      | .ok (b, o) => .ok { command := some "record", base := some b, extra := some (.record o) }
    else if c = "search" then
      match parseCmdLoop searchExtras rest {} {} with
      | .error e => .error e
      | .ok (b, o) => .ok { command := some "search", base := some b, extra := some (.search o) }
    else .error (.systemExit ("argument command: invalid choice: " ++ c))

example : parse_args ["train"] =
    .ok { command := some "train", base := some {}, extra := some (.train {}) } := rfl

example : parse_args ["evaluate", "--dev"] =
    .ok { command := some "evaluate", base := some {},
          extra := some (.evaluate { dataset := "dev" }) } := rfl

example : parse_args ["train", "--batch-size", "abc"] =
    .error (.systemExit "argument --batch-size: invalid int value: abc") := rfl

example : parse_args ["bogus"] =
    .error (.systemExit "argument command: invalid choice: bogus") := rfl

/-! ## Attribute access on the parsed namespace -/

/-- `parsed.train_dir`: an `AttributeError` when the base options are not
attributes of the namespace (no subcommand ran). -/
def NS.train_dirAttr (ns : NS) : Except PyError String :=
  match ns.base with
  | some b => .ok b.train_dir
  | none => .error .attributeError

/-- `parsed.run_name`. -/
def NS.run_nameAttr (ns : NS) : Except PyError String :=
  match ns.base with
  | some b => .ok b.run_name
  | none => .error .attributeError

/-- `parsed.data_dir`. -/
def NS.data_dirAttr (ns : NS) : Except PyError String :=
  match ns.base with
  | some b => .ok b.data_dir
  | none => .error .attributeError

/-- `parsed.log_dir`. -/
def NS.log_dirAttr (ns : NS) : Except PyError String :=
  match ns.base with
  | some b => .ok b.log_dir
  | none => .error .attributeError

/-- `parsed.dataset`: only the `evaluate` subparser defines the `dataset`
dest, so the attribute exists exactly when the command was `evaluate`. -/
def NS.datasetAttr (ns : NS) : Except PyError String :=
  match ns.extra with
  | some (.evaluate o) => .ok o.dataset
  | _ => .error .attributeError

/-! ## The `parsed` lazy property (cli.py lines 118-133) -/

/-- Lines 122-129 of `cli.py`: the `run_type` chain of string comparisons
on `parsed.command`, reading `parsed.dataset` in the `evaluate` branch. -/
def deriveRunType (ns : NS) : Except PyError String :=
  if ns.command = some "train" then .ok "train"
  else if ns.command = some "evaluate" then ns.datasetAttr
  else if ns.command = some "record" then .ok "record"
  else .ok "other"

/-- The namespace returned by the `parsed` property: the parse result with
the derived attributes `run_type` and `run_train_dir` set on it. -/
structure Config where
  ns : NS
  run_type : String
  run_train_dir : String
deriving Repr, DecidableEq

/-- The body of the `parsed` property after `parse_args` (lines 122-133):
derive `run_type`, then set
`run_train_dir = parsed.train_dir + '/' + parsed.run_name`, which raises
`AttributeError` when the base options are absent. -/
def resolveNS (ns : NS) : Except PyError Config :=
  match deriveRunType ns with
  | .error e => .error e
  | .ok rt =>
    match ns.train_dirAttr with
    | .error e => .error e
    | .ok td =>
      match ns.run_nameAttr with
      | .error e => .error e
      | .ok rn => .ok { ns := ns, run_type := rt, run_train_dir := td ++ "/" ++ rn }

/-- One full computation of the `parsed` property body:
`self.parser.parse_args()` followed by the derivations. -/
def resolveArgs (args : List String) : Except PyError Config :=
  match parse_args args with
  | .error e => .error e
  | .ok ns => resolveNS ns

/-- The constructor classes appearing in the `command_executor`
dictionary. -/
inductive ExecutorClass
  | Training
  | Evaluation
  | Recording
  | LanguageModelParameterSearch
deriving Repr, DecidableEq

/-- A constructed executor: the class that was instantiated and the
configuration object handed to its one-argument constructor. -/
structure Executor where
  cls : ExecutorClass
  config : Config
deriving Repr, DecidableEq

/-- The mutable state of a `CLI` object: the caches the two `@lazy`
properties write on first successful computation. -/
structure CLIState where
  parsedCache : Option Config := none
  executorCache : Option Executor := none
deriving Repr, DecidableEq

/-- A freshly constructed `CLI()`: nothing cached yet. -/
def initCLIState : CLIState := {}

/-- Reading `self.parsed` (a `@lazy` property): return the cached
configuration if present, otherwise run the property body and cache a
successful result.  An exception leaves the object unchanged. -/
def parsedRead (args : List String) (s : CLIState) :
    Except PyError (Config × CLIState) :=
  match s.parsedCache with
  | some cfg => .ok (cfg, s)
  | none =>
    match resolveArgs args with
    | .error e => .error e
    | .ok cfg => .ok (cfg, { s with parsedCache := some cfg })

/-- The dictionary literal of `command_executor` (lines 137-142), looked
up by key. -/
def commandRegistry (c : String) : Option ExecutorClass :=
  if c = "train" then some .Training
  else if c = "evaluate" then some .Evaluation
  else if c = "record" then some .Recording
  else if c = "search" then some .LanguageModelParameterSearch
  else none

/-- Reading `self.command_executor` (a `@lazy` property): look
`self.parsed.command` up in the dictionary (a missing key, including
`None`, raises `KeyError`) and instantiate the mapped class with
`self.parsed`. -/
def commandExecutorRead (args : List String) (s : CLIState) :
    Except PyError (Executor × CLIState) :=
  match s.executorCache with
  | some ex => .ok (ex, s)
  | none =>
    match parsedRead args s with
    | .error e => .error e
    | .ok (cfg, s1) =>
      match cfg.ns.command with
      | none => .error .keyError
      | some c =>
        match commandRegistry c with
        | none => .error .keyError
        | some cls =>
          let ex : Executor := { cls := cls, config := cfg }
          .ok (ex, { s1 with executorCache := some ex })

/-! ## Filesystem model and `_ensure_directories` / `run` -/

/-- The filesystem as the collection of existing paths. -/
abbrev FS := List String

/-- Observable events of one `CLI.run()`: the directory-initialization
loop finishing its iteration for a path, and the dispatched executor's
`run()` being entered. -/
inductive Event
  | ensured (path : String)
  | executorRun
deriving Repr, DecidableEq

/-- Split a character list at `/`, accumulating the current component in
reverse. -/
def splitSlash : List Char → List Char → List (List Char)
  | [], acc => [acc.reverse]
  | c :: cs, acc =>
    if c = '/' then acc.reverse :: splitSlash cs [] else splitSlash cs (c :: acc)

/-- The `/`-separated components of a path (`p.split('/')`). -/
def pathParts (p : String) : List String :=
  (splitSlash p.data []).map fun l => String.mk l

/-- Join path components with `/` (inverse of `pathParts`). -/
def joinSlash : List String → String
  | [] => ""
  | [x] => x
  | x :: xs => x ++ "/" ++ joinSlash xs

/-- The paths `os.makedirs(p)` brings into existence: every proper
ancestor of `p` (splitting on `/`) and `p` itself. -/
def pathChain (p : String) : List String :=
  let parts := pathParts p
  ((List.range (parts.length - 1)).map fun i =>
    joinSlash (parts.take (i + 1))) ++ [p]

/-- `os.makedirs(p)`: create the missing ancestors and the path. -/
def makedirs (p : String) (fs : FS) : FS :=
  fs ++ (pathChain p).filter (fun q => ¬ fs.contains q)

/-- The loop of `_ensure_directories` (lines 153-155) over an already
computed directory list: `if not os.path.exists(d): os.makedirs(d)`,
together with the per-path completion events. -/
def ensureLoop : List String → FS → FS × List Event
  | [], fs => (fs, [])
  | d :: ds, fs =>
    let fs1 := if fs.contains d then fs else makedirs d fs
    let res := ensureLoop ds fs1
    (res.1, Event.ensured d :: res.2)

/-- `self._ensure_directories()` (lines 148-155): read `self.parsed`,
build the four-element directory list
`[train_dir, data_dir, log_dir, run_train_dir]`, and run the loop. -/
def ensureDirectories (args : List String) (s : CLIState) (fs : FS) :
    Except PyError Unit × CLIState × FS × List Event :=
  match parsedRead args s with
  | .error e => (.error e, s, fs, [])
  | .ok (cfg, s1) =>
    match cfg.ns.train_dirAttr with
    | .error e => (.error e, s1, fs, [])
    | .ok td =>
      match cfg.ns.data_dirAttr with
      | .error e => (.error e, s1, fs, [])
      | .ok dd =>
        match cfg.ns.log_dirAttr with
        | .error e => (.error e, s1, fs, [])
        | .ok ld =>
          let res := ensureLoop [td, dd, ld, cfg.run_train_dir] fs
          (.ok (), s1, res.1, res.2)

/-- The outcome of `cli.run()`: whether it raised, the final object state,
the final filesystem, and the event trace. -/
structure RunResult where
  outcome : Except PyError Unit
  finalState : CLIState
  fs : FS
  trace : List Event
deriving Repr

/-- `CLI.run` (lines 144-146): `self._ensure_directories()` then
`self.command_executor.run()`. -/
def cliRun (args : List String) (s : CLIState) (fs : FS) : RunResult :=
  match ensureDirectories args s fs with
  | (.error e, s1, fs1, evs) => ⟨.error e, s1, fs1, evs⟩
  | (.ok (), s1, fs1, evs) =>
    match commandExecutorRead args s1 with
    | .error e => ⟨.error e, s1, fs1, evs⟩
    | .ok (_, s2) => ⟨.ok (), s2, fs1, evs ++ [Event.executorRun]⟩

example :
    cliRun ["train"] initCLIState [] =
      ⟨.ok (),
       { parsedCache := some { ns := { command := some "train", base := some {},
                                       extra := some (.train {}) },
                               run_type := "train", run_train_dir := "train/noname" },
         executorCache := some
           { cls := .Training,
             config := { ns := { command := some "train", base := some {},
                                 extra := some (.train {}) },
                         run_type := "train", run_train_dir := "train/noname" } } },
       ["train", "data", "log", "train/noname"],
       [.ensured "train", .ensured "data", .ensured "log",
        .ensured "train/noname", .executorRun]⟩ := rfl

example :
    cliRun [] initCLIState [] =
      ⟨.error .attributeError, initCLIState, [], []⟩ := rfl

/-! ## Concrete objects used as witnesses -/

/-- The configuration resolved from the bare `train` command line. -/
def cfgTrain : Config :=
  { ns := { command := some "train", base := some {}, extra := some (.train {}) },
    run_type := "train", run_train_dir := "train/noname" }

/-- The CLI state after the first read of `parsed` on the bare `train`
command line. -/
def stateAfterParse : CLIState := { parsedCache := some cfgTrain }

/-- The executor the dispatcher builds for the bare `train` command
line. -/
def exTrain : Executor := { cls := .Training, config := cfgTrain }

/-- The CLI state after the executor has been constructed and cached. -/
def stateAfterExec : CLIState :=
  { parsedCache := some cfgTrain, executorCache := some exTrain }

/-! ## Memoization of `parsed` (claims C3, C10) -/

/-- A successful read of the `parsed` lazy property leaves the returned
configuration in the cache. -/
theorem parsedRead_cached (args : List String) (s : CLIState) (cfg : Config)
    (s' : CLIState) (h : parsedRead args s = .ok (cfg, s')) :
    s'.parsedCache = some cfg := by
  unfold parsedRead at h
  cases hc : s.parsedCache with
  | some c =>
    rw [hc] at h
    simp only [Except.ok.injEq, Prod.mk.injEq] at h
    obtain ⟨rfl, rfl⟩ := h
    exact hc
  | none =>
    rw [hc] at h
    cases hr : resolveArgs args with
    | error e => rw [hr] at h; exact Except.noConfusion h
    | ok c =>
      rw [hr] at h
      simp only [Except.ok.injEq, Prod.mk.injEq] at h
      obtain ⟨rfl, rfl⟩ := h
      rfl

/-- Claim C3: the resolved configuration is computed at most once per
process: after a successful read of `parsed`, the cache holds the
returned instance, and every later read — even with a different argument
vector — returns that identical instance with no state change and no
re-parse. -/
theorem parsed_memoized (args : List String) (s : CLIState) (cfg : Config)
    (s' : CLIState) (h : parsedRead args s = .ok (cfg, s')) :
    s'.parsedCache = some cfg ∧
    ∀ args2, parsedRead args2 s' = .ok (cfg, s') := by
  have hc := parsedRead_cached args s cfg s' h
  refine ⟨hc, fun args2 => ?_⟩
  unfold parsedRead
  rw [hc]

/-- Witness for C3 at the concrete command line `train`: the second read
(here with a different argument vector, showing no re-parse happens)
returns the cached instance. -/
theorem parsed_memoized_witness :
    stateAfterParse.parsedCache = some cfgTrain ∧
    parsedRead ["evaluate"] stateAfterParse = .ok (cfgTrain, stateAfterParse) := by
  have h := parsed_memoized ["train"] initCLIState cfgTrain stateAfterParse rfl
  exact ⟨h.1, h.2 ["evaluate"]⟩

/-- Claim C10: starting from a fresh `CLI` object, the executor is
constructed at most once, with exactly the cached configuration that the
first `parsed` read produced; every later read of `command_executor`
returns the identical instance without touching the configuration. -/
theorem executor_memoized (args : List String) (cfg : Config) (s1 : CLIState)
    (ex : Executor) (s2 : CLIState)
    (hp : parsedRead args initCLIState = .ok (cfg, s1))
    (hx : commandExecutorRead args s1 = .ok (ex, s2)) :
    ex.config = cfg ∧ s2.parsedCache = some cfg ∧ s2.executorCache = some ex ∧
    ∀ args2, commandExecutorRead args2 s2 = .ok (ex, s2) := by
  unfold parsedRead initCLIState at hp
  simp only at hp
  cases hr : resolveArgs args with
  | error e => rw [hr] at hp; exact Except.noConfusion hp
  | ok c =>
    rw [hr] at hp
    simp only [Except.ok.injEq, Prod.mk.injEq] at hp
    obtain ⟨rfl, rfl⟩ := hp
    have hre : parsedRead args ({ parsedCache := some c, executorCache := none } : CLIState) =
        .ok (c, { parsedCache := some c, executorCache := none }) := rfl
    unfold commandExecutorRead at hx
    split at hx
    · rename_i ex0 heq
      exact absurd heq (by simp)
    · split at hx
      · rename_i e heq
        rw [hre] at heq
        exact Except.noConfusion heq
      · rename_i cfg0 s10 heq
        rw [hre] at heq
        simp only [Except.ok.injEq, Prod.mk.injEq] at heq
        obtain ⟨rfl, rfl⟩ := heq
        split at hx
        · exact Except.noConfusion hx
        · split at hx
          · exact Except.noConfusion hx
          · rename_i cname heq2 cls heq3
            simp only [Except.ok.injEq, Prod.mk.injEq] at hx
            obtain ⟨rfl, rfl⟩ := hx
            refine ⟨rfl, rfl, rfl, fun args2 => rfl⟩

/-- Witness for C10 at the concrete command line `train`. -/
theorem executor_memoized_witness :
    exTrain.config = cfgTrain ∧ stateAfterExec.parsedCache = some cfgTrain ∧
    stateAfterExec.executorCache = some exTrain ∧
    commandExecutorRead ["record"] stateAfterExec = .ok (exTrain, stateAfterExec) := by
  have h := executor_memoized ["train"] cfgTrain stateAfterParse exTrain stateAfterExec rfl rfl
  exact ⟨h.1, h.2.1, h.2.2.1, h.2.2.2 ["record"]⟩

/-! ## `run_train_dir` derivation (claim C2) -/

/-- Inversion for `resolveArgs`: a successful resolution factors through
a successful parse. -/
theorem resolveArgs_ok_inv (args : List String) (cfg : Config)
    (h : resolveArgs args = .ok cfg) :
    ∃ ns, parse_args args = .ok ns ∧ resolveNS ns = .ok cfg := by
  unfold resolveArgs at h
  cases hp : parse_args args with
  | error e => rw [hp] at h; exact Except.noConfusion h
  | ok ns => rw [hp] at h; exact ⟨ns, rfl, h⟩

/-- Claim C2: every successfully resolved configuration has
`run_train_dir = train_dir + '/' + run_name`, a plain string
concatenation of the parsed base options. -/
theorem run_train_dir_concat (args : List String) (cfg : Config)
    (h : resolveArgs args = .ok cfg) :
    ∃ b, cfg.ns.base = some b ∧
      cfg.run_train_dir = b.train_dir ++ "/" ++ b.run_name := by
  obtain ⟨ns, hp, h⟩ := resolveArgs_ok_inv args cfg h
  unfold resolveNS NS.train_dirAttr NS.run_nameAttr at h
  cases hd : deriveRunType ns with
  | error e => rw [hd] at h; exact Except.noConfusion h
  | ok rt =>
    rw [hd] at h
    cases hb : ns.base with
    | none => rw [hb] at h; exact Except.noConfusion h
    | some b =>
      rw [hb] at h
      have h2 : ({ ns := ns, run_type := rt
                   , run_train_dir := b.train_dir ++ "/" ++ b.run_name } : Config) = cfg :=
        Except.ok.inj h
      subst h2
      exact ⟨b, hb, rfl⟩

/-- Witness for C2: with all defaults (`train` command) the result is
`"train/noname"`, and a trailing separator in `--train-dir` is not
normalized away (`"train//noname"`). -/
theorem run_train_dir_concat_witness :
    (∃ b, cfgTrain.ns.base = some b ∧
       cfgTrain.run_train_dir = b.train_dir ++ "/" ++ b.run_name) ∧
    cfgTrain.run_train_dir = "train/noname" ∧
    ∃ cfg2, resolveArgs ["train", "--train-dir", "train/"] = .ok cfg2 ∧
      cfg2.run_train_dir = "train//noname" :=
  ⟨run_train_dir_concat ["train"] cfgTrain rfl, rfl, ⟨_, rfl, rfl⟩⟩

/-! ## Directory initializer (claim C4) -/

/-- A path is among the paths `makedirs` creates for it. -/
theorem mem_pathChain_self (p : String) : p ∈ pathChain p := by
  unfold pathChain
  simp

/-- `makedirs` only adds paths. -/
theorem mem_makedirs_of_mem (p q : String) (fs : FS) (h : q ∈ fs) :
    q ∈ makedirs p fs := by
  unfold makedirs
  exact List.mem_append_left _ h

/-- After `makedirs p`, the path `p` exists. -/
theorem self_mem_makedirs (p : String) (fs : FS) : p ∈ makedirs p fs := by
  unfold makedirs
  by_cases hp : p ∈ fs
  · exact List.mem_append_left _ hp
  · refine List.mem_append_right _ ?_
    rw [List.mem_filter]
    refine ⟨mem_pathChain_self p, ?_⟩
    simp [hp]

/-- The ensure loop only adds paths. -/
theorem ensureLoop_mono (ds : List String) :
    ∀ (fs : FS) (q : String), q ∈ fs → q ∈ (ensureLoop ds fs).1 := by
  induction ds with
  | nil => intro fs q h; simpa [ensureLoop] using h
  | cons d ds ih =>
    intro fs q h
    unfold ensureLoop
    by_cases hc : fs.contains d
    · simp only [hc, if_true]
      exact ih fs q h
    · simp only [hc, if_false]
      exact ih _ q (mem_makedirs_of_mem d q fs h)

/-- After the ensure loop, every path of the list exists. -/
theorem ensureLoop_mem (ds : List String) :
    ∀ (fs : FS) (d : String), d ∈ ds → d ∈ (ensureLoop ds fs).1 := by
  induction ds with
  | nil => intro fs d h; exact absurd h (List.not_mem_nil d)
  | cons d0 ds ih =>
    intro fs d h
    unfold ensureLoop
    rcases List.mem_cons.mp h with rfl | hmem
    · by_cases hc : fs.contains d
      · simp only [hc, if_true]
        exact ensureLoop_mono ds fs d (by simpa using hc)
      · simp only [hc, if_false]
        exact ensureLoop_mono ds _ d (self_mem_makedirs d fs)
    · by_cases hc : fs.contains d0
      · simp only [hc, if_true]
        exact ih fs d hmem
      · simp only [hc, if_false]
        exact ih _ d hmem

/-- If every path of the list already exists, the ensure loop leaves the
filesystem untouched. -/
theorem ensureLoop_noop (ds : List String) :
    ∀ (fs : FS), (∀ d ∈ ds, d ∈ fs) → (ensureLoop ds fs).1 = fs := by
  induction ds with
  | nil => intro fs _; simp [ensureLoop]
  | cons d ds ih =>
    intro fs h
    unfold ensureLoop
    have hc : fs.contains d = true := by
      simpa using h d (List.mem_cons_self d ds)
    simp only [hc, if_true]
    exact ih fs fun d' hd' => h d' (List.mem_cons_of_mem d hd')

/-- The ensure loop emits exactly one completion event per path, in list
order, regardless of the filesystem. -/
theorem ensureLoop_trace (ds : List String) :
    ∀ (fs : FS), (ensureLoop ds fs).2 = ds.map Event.ensured := by
  induction ds with
  | nil => intro fs; simp [ensureLoop]
  | cons d ds ih =>
    intro fs
    unfold ensureLoop
    simp [ih]

/-- Claim C4: the directory initializer is idempotent — running the
ensure loop a second time on the same path list changes nothing on the
filesystem (and, having no error outcome, raises nothing); it performs
the same per-path existence checks, emitting the same events. -/
theorem ensure_directories_idempotent (ps : List String) (fs : FS) :
    (ensureLoop ps (ensureLoop ps fs).1).1 = (ensureLoop ps fs).1 ∧
    (ensureLoop ps (ensureLoop ps fs).1).2 = ps.map Event.ensured :=
  ⟨ensureLoop_noop ps (ensureLoop ps fs).1 (fun d hd => ensureLoop_mem ps fs d hd),
   ensureLoop_trace ps (ensureLoop ps fs).1⟩

/-! ## Shape of successful parses, Command Registry (claim C9) -/

/-- Inversion for `parse_args` on a non-empty argument list: a successful
parse went through exactly one of the four subcommand branches. -/
theorem parse_args_shape (c : String) (rest : List String) (ns : NS)
    (h : parse_args (c :: rest) = .ok ns) :
    (c = "train" ∧ ∃ b t, parseCmdLoop trainExtras rest {} {} = .ok (b, t) ∧
       ns = { command := some "train", base := some b, extra := some (.train t) }) ∨
    (c = "evaluate" ∧ ∃ b o, parseCmdLoop evalExtras rest {} {} = .ok (b, o) ∧
       ns = { command := some "evaluate", base := some b, extra := some (.evaluate o) }) ∨
    (c = "record" ∧ ∃ b o, parseCmdLoop recordExtras rest {} {} = .ok (b, o) ∧
       ns = { command := some "record", base := some b, extra := some (.record o) }) ∨
    (c = "search" ∧ ∃ b o, parseCmdLoop searchExtras rest {} {} = .ok (b, o) ∧
       ns = { command := some "search", base := some b, extra := some (.search o) }) := by
  simp only [parse_args] at h
  split_ifs at h with h1 h2 h3 h4
  · cases hl : parseCmdLoop trainExtras rest {} {} with
    | error e => rw [hl] at h; exact Except.noConfusion h
    | ok p =>
      cases p with
      | mk b t =>
        rw [hl] at h
        exact Or.inl ⟨h1, b, t, rfl, (Except.ok.inj h).symm⟩
  · cases hl : parseCmdLoop evalExtras rest {} {} with
    | error e => rw [hl] at h; exact Except.noConfusion h
    | ok p =>
      cases p with
      | mk b o =>
        rw [hl] at h
        exact Or.inr (Or.inl ⟨h2, b, o, rfl, (Except.ok.inj h).symm⟩)
  · cases hl : parseCmdLoop recordExtras rest {} {} with
    | error e => rw [hl] at h; exact Except.noConfusion h
    | ok p =>
      cases p with
      | mk b o =>
        rw [hl] at h
        exact Or.inr (Or.inr (Or.inl ⟨h3, b, o, rfl, (Except.ok.inj h).symm⟩))
  · cases hl : parseCmdLoop searchExtras rest {} {} with
    | error e => rw [hl] at h; exact Except.noConfusion h
    | ok p =>
      cases p with
      | mk b o =>
        rw [hl] at h
        exact Or.inr (Or.inr (Or.inr ⟨h4, b, o, rfl, (Except.ok.inj h).symm⟩))

/-- A successful parse leaves `command` at `None` or at one of the four
registered subcommand names. -/
theorem parse_args_command (args : List String) (ns : NS)
    (h : parse_args args = .ok ns) :
    ns.command = none ∨ ns.command = some "train" ∨ ns.command = some "evaluate" ∨
    ns.command = some "record" ∨ ns.command = some "search" := by
  cases args with
  | nil =>
    unfold parse_args at h
    have h2 := Except.ok.inj h
    subst h2
    exact Or.inl rfl
  | cons c rest =>
    rcases parse_args_shape c rest ns h with
      ⟨_, b, t, _, rfl⟩ | ⟨_, b, o, _, rfl⟩ | ⟨_, b, o, _, rfl⟩ | ⟨_, b, o, _, rfl⟩
    · exact Or.inr (Or.inl rfl)
    · exact Or.inr (Or.inr (Or.inl rfl))
    · exact Or.inr (Or.inr (Or.inr (Or.inl rfl)))
    · exact Or.inr (Or.inr (Or.inr (Or.inr rfl)))

/-- Claim C9: the Command Registry is complete and unambiguous over
validated input — every supplied command value that survives schema
validation has exactly one entry in the executor dictionary, and the
dictionary is the fixed four-entry mapping. -/
theorem registry_complete (args : List String) (ns : NS) (c : String)
    (hp : parse_args args = .ok ns) (hc : ns.command = some c) :
    (∃! cls, commandRegistry c = some cls) ∧
    commandRegistry "train" = some ExecutorClass.Training ∧
    commandRegistry "evaluate" = some ExecutorClass.Evaluation ∧
    commandRegistry "record" = some ExecutorClass.Recording ∧
    commandRegistry "search" = some ExecutorClass.LanguageModelParameterSearch := by
  refine ⟨?_, rfl, rfl, rfl, rfl⟩
  rcases parse_args_command args ns hp with h | h | h | h | h <;> rw [h] at hc
  · exact Option.noConfusion hc
  · obtain rfl := Option.some.inj hc
    exact ⟨.Training, rfl, fun y hy => (Option.some.inj hy).symm⟩
  · obtain rfl := Option.some.inj hc
    exact ⟨.Evaluation, rfl, fun y hy => (Option.some.inj hy).symm⟩
  · obtain rfl := Option.some.inj hc
    exact ⟨.Recording, rfl, fun y hy => (Option.some.inj hy).symm⟩
  · obtain rfl := Option.some.inj hc
    exact ⟨.LanguageModelParameterSearch, rfl, fun y hy => (Option.some.inj hy).symm⟩

/-- The namespace parsed from the bare `search` command line. -/
def nsSearch : NS :=
  { command := some "search", base := some {}, extra := some (.search {}) }

/-- Witness for C9 at the concrete command line `search`. -/
theorem registry_complete_witness :
    (∃! cls, commandRegistry "search" = some cls) ∧
    commandRegistry "train" = some ExecutorClass.Training ∧
    commandRegistry "evaluate" = some ExecutorClass.Evaluation ∧
    commandRegistry "record" = some ExecutorClass.Recording ∧
    commandRegistry "search" = some ExecutorClass.LanguageModelParameterSearch :=
  registry_complete ["search"] nsSearch "search" rfl rfl

/-! ## Fail-fast on validation errors (claim C7) -/

/-- A parse failure makes `run` re-raise the argparse error with the
object state, filesystem and trace untouched. -/
theorem cliRun_parse_error (args : List String) (s : CLIState) (fs : FS)
    (e : PyError) (h0 : s.parsedCache = none)
    (hp : parse_args args = .error e) :
    cliRun args s fs = ⟨.error e, s, fs, []⟩ := by
  have hpr : parsedRead args s = .error e := by
    simp only [parsedRead, resolveArgs, h0, hp]
  simp only [cliRun, ensureDirectories, hpr]

/-- Claim C7: when the schema rejects the raw arguments (unparseable
value, unknown flag, unknown command), `run` re-raises that argparse
error before any directory is created, before any event is emitted and
before any executor is constructed: object state and filesystem are
returned untouched. -/
theorem validation_fail_fast (args : List String) (s : CLIState) (fs : FS)
    (e : PyError) (h0 : s.parsedCache = none)
    (hp : parse_args args = .error e) :
    cliRun args s fs = ⟨.error e, s, fs, []⟩ :=
  cliRun_parse_error args s fs e h0 hp

/-- Witness for C7 at the concrete invalid value `--batch-size abc`. -/
theorem validation_fail_fast_witness :
    cliRun ["train", "--batch-size", "abc"] initCLIState [] =
      ⟨.error (.systemExit "argument --batch-size: invalid int value: abc"),
       initCLIState, [], []⟩ :=
  validation_fail_fast ["train", "--batch-size", "abc"] initCLIState []
    (.systemExit "argument --batch-size: invalid int value: abc") rfl rfl

/-! ## Unknown or absent command (claim C6) -/

/-- Claim C6 counterexample: with no subcommand at all, `run` aborts with
an `AttributeError` raised while resolving the configuration (reading
`parsed.train_dir` on a namespace that lacks it, cli.py line 131) — not
with a dispatch-time unknown-command (`KeyError`) failure as the claim
states; and an unrecognized token aborts inside argparse.  The claim's
"no directories are created" part does hold in both cases. -/
theorem unknown_command_cex :
    cliRun [] initCLIState [] = ⟨.error .attributeError, initCLIState, [], []⟩ ∧
    PyError.attributeError ≠ PyError.keyError ∧
    cliRun ["bogus"] initCLIState [] =
      ⟨.error (.systemExit "argument command: invalid choice: bogus"),
       initCLIState, [], []⟩ ∧
    PyError.systemExit "argument command: invalid choice: bogus" ≠ PyError.keyError :=
  ⟨rfl, fun hcon => PyError.noConfusion hcon, rfl,
   fun hcon => PyError.noConfusion hcon⟩

/-- Claim C6 amended: for every invocation whose command is absent or not
in the Command Registry, `run` aborts before any directory creation —
filesystem unchanged, no events, no executor — but the raised error is an
argparse rejection (unknown token) or an `AttributeError` (absent
command), never the dispatcher's `KeyError`. -/
theorem unknown_command_amended (args : List String) (s : CLIState) (fs : FS)
    (h0 : s.parsedCache = none)
    (h : args = [] ∨ ∃ c rest, args = c :: rest ∧ commandRegistry c = none) :
    ∃ e, cliRun args s fs = ⟨.error e, s, fs, []⟩ ∧ e ≠ PyError.keyError := by
  rcases h with rfl | ⟨c, rest, rfl, hreg⟩
  · refine ⟨.attributeError, ?_, fun hcon => PyError.noConfusion hcon⟩
    have hpr : parsedRead [] s = .error .attributeError := by
      have hr : resolveArgs [] = .error .attributeError := rfl
      simp only [parsedRead, h0, hr]
    simp only [cliRun, ensureDirectories, hpr]
  · have h1 : ¬ c = "train" := fun hh => by
      rw [hh] at hreg; exact Option.noConfusion hreg
    have h2 : ¬ c = "evaluate" := fun hh => by
      rw [hh] at hreg; exact Option.noConfusion hreg
    have h3 : ¬ c = "record" := fun hh => by
      rw [hh] at hreg; exact Option.noConfusion hreg
    have h4 : ¬ c = "search" := fun hh => by
      rw [hh] at hreg; exact Option.noConfusion hreg
    have hp : parse_args (c :: rest) =
        .error (.systemExit ("argument command: invalid choice: " ++ c)) := by
      simp only [parse_args]
      rw [if_neg h1, if_neg h2, if_neg h3, if_neg h4]
    refine ⟨.systemExit ("argument command: invalid choice: " ++ c), ?_,
      fun hcon => PyError.noConfusion hcon⟩
    exact cliRun_parse_error (c :: rest) s fs _ h0 hp

/-- Witness for the amended C6 at the concrete unknown command `bogus`. -/
theorem unknown_command_amended_witness :
    ∃ e, cliRun ["bogus"] initCLIState [] = ⟨.error e, initCLIState, [], []⟩ ∧
      e ≠ PyError.keyError :=
  unknown_command_amended ["bogus"] initCLIState [] rfl
    (Or.inr ⟨"bogus", [], rfl, rfl⟩)

/-! ## Directories exist before the executor runs (claim C5) -/

/-- Executor construction does not touch the parsed-configuration cache
once it is populated. -/
theorem commandExecutorRead_state (args : List String) (s : CLIState)
    (cfg : Config) (ex : Executor) (s2 : CLIState)
    (hc : s.parsedCache = some cfg)
    (hx : commandExecutorRead args s = .ok (ex, s2)) :
    s2.parsedCache = some cfg := by
  have hp2 : parsedRead args s = .ok (cfg, s) := by
    simp only [parsedRead, hc]
  unfold commandExecutorRead at hx
  cases hxc : s.executorCache with
  | some ex0 =>
    rw [hxc] at hx
    simp only [Except.ok.injEq, Prod.mk.injEq] at hx
    obtain ⟨rfl, rfl⟩ := hx
    exact hc
  | none =>
    simp only [hxc, hp2] at hx
    cases hcm : cfg.ns.command with
    | none => simp only [hcm] at hx; exact Except.noConfusion hx
    | some cname =>
      simp only [hcm] at hx
      cases hcr : commandRegistry cname with
      | none => simp only [hcr] at hx; exact Except.noConfusion hx
      | some cls =>
        simp only [hcr, Except.ok.injEq, Prod.mk.injEq] at hx
        obtain ⟨rfl, rfl⟩ := hx
        exact hc

/-- Claim C5: every successful `run` first completes directory
initialization for exactly the four paths train_dir, data_dir, log_dir,
run_train_dir of the resolved configuration — in that order — and only
then enters the executor's `run()`. -/
theorem dirs_before_executor (args : List String) (s : CLIState) (fs : FS)
    (h : (cliRun args s fs).outcome = .ok ()) :
    ∃ cfg b, (cliRun args s fs).finalState.parsedCache = some cfg ∧
      cfg.ns.base = some b ∧
      (cliRun args s fs).trace =
        [Event.ensured b.train_dir, Event.ensured b.data_dir,
         Event.ensured b.log_dir, Event.ensured cfg.run_train_dir,
         Event.executorRun] := by
  cases hp : parsedRead args s with
  | error e =>
    have hrun : cliRun args s fs = ⟨.error e, s, fs, []⟩ := by
      simp only [cliRun, ensureDirectories, hp]
    rw [hrun] at h
    exact Except.noConfusion h
  | ok p =>
    cases p with
    | mk cfg s1 =>
      cases hb : cfg.ns.base with
      | none =>
        have hrun : cliRun args s fs = ⟨.error .attributeError, s1, fs, []⟩ := by
          simp only [cliRun, ensureDirectories, hp, NS.train_dirAttr, hb]
        rw [hrun] at h
        exact Except.noConfusion h
      | some b =>
        cases hx : commandExecutorRead args s1 with
        | error e =>
          have hrun : (cliRun args s fs).outcome = .error e := by
            simp only [cliRun, ensureDirectories, hp, NS.train_dirAttr,
              NS.data_dirAttr, NS.log_dirAttr, hb, hx]
          rw [hrun] at h
          exact Except.noConfusion h
        | ok p2 =>
          cases p2 with
          | mk ex s2 =>
            have hrun : cliRun args s fs =
                ⟨.ok (), s2,
                 (ensureLoop [b.train_dir, b.data_dir, b.log_dir,
                    cfg.run_train_dir] fs).1,
                 (ensureLoop [b.train_dir, b.data_dir, b.log_dir,
                    cfg.run_train_dir] fs).2 ++ [Event.executorRun]⟩ := by
              simp only [cliRun, ensureDirectories, hp, NS.train_dirAttr,
                NS.data_dirAttr, NS.log_dirAttr, hb, hx]
            have hc1 : s1.parsedCache = some cfg := parsedRead_cached args s cfg s1 hp
            refine ⟨cfg, b, ?_, hb, ?_⟩
            · rw [hrun]
              exact commandExecutorRead_state args s1 cfg ex s2 hc1 hx
            · rw [hrun]
              simp only [ensureLoop_trace]
              rfl

/-- Witness for C5 at the concrete command line `train` on an empty
filesystem. -/
theorem dirs_before_executor_witness :
    ∃ cfg b,
      (cliRun ["train"] initCLIState []).finalState.parsedCache = some cfg ∧
      cfg.ns.base = some b ∧
      (cliRun ["train"] initCLIState []).trace =
        [Event.ensured b.train_dir, Event.ensured b.data_dir,
         Event.ensured b.log_dir, Event.ensured cfg.run_train_dir,
         Event.executorRun] :=
  dirs_before_executor ["train"] initCLIState [] rfl

/-! ## Inversion of one step of the flag loop -/

/-- A successful parse of a non-empty token list starts with exactly one
recognized action: one of the seven base flags, or a command-specific
flag.  Value-taking flags consumed a non-`--` token. -/
theorem parseCmdLoop_cons_cases {ε : Type} (extras : String → Option (ExtraSpec ε))
    (flag : String) (rest : List String) (b : BaseOpts) (x : ε)
    (b' : BaseOpts) (x' : ε)
    (h : parseCmdLoop extras (flag :: rest) b x = .ok (b', x')) :
    (flag = "--mfcc" ∧
      parseCmdLoop extras rest { b with feature_type := "mfcc" } x = .ok (b', x')) ∨
    (flag = "--power" ∧
      parseCmdLoop extras rest { b with feature_type := "power" } x = .ok (b', x')) ∨
    (∃ v rest2 n, flag = "--batch-size" ∧ rest = v :: rest2 ∧ isDashDash v = false ∧
      parseCmdLoop extras rest2 { b with batch_size := n } x = .ok (b', x')) ∨
    (∃ v rest2, flag = "--run-name" ∧ rest = v :: rest2 ∧ isDashDash v = false ∧
      parseCmdLoop extras rest2 { b with run_name := v } x = .ok (b', x')) ∨
    (∃ v rest2, flag = "--data-dir" ∧ rest = v :: rest2 ∧ isDashDash v = false ∧
      parseCmdLoop extras rest2 { b with data_dir := v } x = .ok (b', x')) ∨
    (∃ v rest2, flag = "--train-dir" ∧ rest = v :: rest2 ∧ isDashDash v = false ∧
      parseCmdLoop extras rest2 { b with train_dir := v } x = .ok (b', x')) ∨
    (∃ v rest2, flag = "--log-dir" ∧ rest = v :: rest2 ∧ isDashDash v = false ∧
      parseCmdLoop extras rest2 { b with log_dir := v } x = .ok (b', x')) ∨
    (∃ upd, extras flag = some (.constAct upd) ∧
      parseCmdLoop extras rest b (upd x) = .ok (b', x')) ∨
    (∃ upd v rest2 n, extras flag = some (.intAct upd) ∧ rest = v :: rest2 ∧
      isDashDash v = false ∧
      parseCmdLoop extras rest2 b (upd n x) = .ok (b', x')) ∨
    (∃ upd v rest2, extras flag = some (.strAct upd) ∧ rest = v :: rest2 ∧
      isDashDash v = false ∧
      parseCmdLoop extras rest2 b (upd v x) = .ok (b', x')) ∨
    (∃ upd v rest2, extras flag = some (.floatAct upd) ∧ rest = v :: rest2 ∧
      isDashDash v = false ∧
      parseCmdLoop extras rest2 b (upd v x) = .ok (b', x')) := by
  cases rest with
  | nil =>
    rw [parseCmdLoop.eq_2] at h
    split_ifs at h with h1 h2 h3 h4 h5 h6 h7
    · exact Or.inl ⟨h1, h⟩
    · exact Or.inr (Or.inl ⟨h2, h⟩)
    · cases hex : extras flag with
      | none => rw [hex] at h; exact Except.noConfusion h
      | some spec =>
        rw [hex] at h
        cases spec with
        | constAct upd =>
          exact Or.inr (Or.inr (Or.inr (Or.inr (Or.inr (Or.inr (Or.inr
            (Or.inl ⟨upd, rfl, h⟩)))))))
        | intAct upd => exact Except.noConfusion h
        | strAct upd => exact Except.noConfusion h
        | floatAct upd => exact Except.noConfusion h
  | cons v rest2 =>
    rw [parseCmdLoop.eq_3] at h
    split_ifs at h with h1 h2 h3 hd3 h4 hd4 h5 hd5 h6 hd6 h7 hd7 hd8
    · exact Or.inl ⟨h1, h⟩
    · exact Or.inr (Or.inl ⟨h2, h⟩)
    · have hdd : isDashDash v = false := by simpa using hd3
      cases hn : pyInt? v with
      | none => rw [hn] at h; exact Except.noConfusion h
      | some n =>
        rw [hn] at h
        exact Or.inr (Or.inr (Or.inl ⟨v, rest2, n, h3, rfl, hdd, h⟩))
    · have hdd : isDashDash v = false := by simpa using hd4
      exact Or.inr (Or.inr (Or.inr (Or.inl ⟨v, rest2, h4, rfl, hdd, h⟩)))
    · have hdd : isDashDash v = false := by simpa using hd5
      exact Or.inr (Or.inr (Or.inr (Or.inr (Or.inl ⟨v, rest2, h5, rfl, hdd, h⟩))))
    · have hdd : isDashDash v = false := by simpa using hd6
      exact Or.inr (Or.inr (Or.inr (Or.inr (Or.inr
        (Or.inl ⟨v, rest2, h6, rfl, hdd, h⟩)))))
    · have hdd : isDashDash v = false := by simpa using hd7
      exact Or.inr (Or.inr (Or.inr (Or.inr (Or.inr (Or.inr
        (Or.inl ⟨v, rest2, h7, rfl, hdd, h⟩))))))
    · cases hex : extras flag with
      | none => rw [hex] at h; exact Except.noConfusion h
      | some spec =>
        rw [hex] at h
        cases spec with
        | constAct upd =>
          exact Or.inr (Or.inr (Or.inr (Or.inr (Or.inr (Or.inr (Or.inr
            (Or.inl ⟨upd, rfl, h⟩)))))))
        | intAct upd => exact Except.noConfusion h
        | strAct upd => exact Except.noConfusion h
        | floatAct upd => exact Except.noConfusion h
    · have hdd : isDashDash v = false := by simpa using hd8
      cases hex : extras flag with
      | none => rw [hex] at h; exact Except.noConfusion h
      | some spec =>
        rw [hex] at h
        cases spec with
        | constAct upd =>
          exact Or.inr (Or.inr (Or.inr (Or.inr (Or.inr (Or.inr (Or.inr
            (Or.inl ⟨upd, rfl, h⟩)))))))
        | intAct upd =>
          have h2 : (match pyInt? v with
              | none => (Except.error (PyError.systemExit
                  ("argument " ++ flag ++ ": invalid int value: " ++ v)) :
                  Except PyError (BaseOpts × ε))
              | some n => parseCmdLoop extras rest2 b (upd n x)) = Except.ok (b', x') := h
          cases hn : pyInt? v with
          | none => rw [hn] at h2; exact Except.noConfusion h2
          | some n =>
            rw [hn] at h2
            exact Or.inr (Or.inr (Or.inr (Or.inr (Or.inr (Or.inr (Or.inr
              (Or.inr (Or.inl ⟨upd, v, rest2, n, rfl, rfl, hdd, h2⟩))))))))
        | strAct upd =>
          exact Or.inr (Or.inr (Or.inr (Or.inr (Or.inr (Or.inr (Or.inr
            (Or.inr (Or.inr (Or.inl ⟨upd, v, rest2, rfl, rfl, hdd, h⟩)))))))))
        | floatAct upd =>
          exact Or.inr (Or.inr (Or.inr (Or.inr (Or.inr (Or.inr (Or.inr
            (Or.inr (Or.inr (Or.inr ⟨upd, v, rest2, rfl, rfl, hdd, h⟩)))))))))

/-! ## Feature type: both flags accepted, default `power` (claim C8) -/

/-- Auxiliary induction (on a length bound): a parse that mentions
neither `--mfcc` nor `--power` leaves `feature_type` untouched.  The
command-specific actions cannot touch the base options at all. -/
theorem parseCmdLoop_feature_aux {ε : Type} (extras : String → Option (ExtraSpec ε)) :
    ∀ (n : Nat) (toks : List String), toks.length ≤ n →
      ∀ (b : BaseOpts) (x : ε) (b' : BaseOpts) (x' : ε),
        parseCmdLoop extras toks b x = .ok (b', x') →
        ¬ "--mfcc" ∈ toks → ¬ "--power" ∈ toks →
        b'.feature_type = b.feature_type := by
  intro n
  induction n with
  | zero =>
    intro toks hlen b x b' x' h hm hpw
    have ht : toks = [] := List.length_eq_zero.mp (Nat.le_zero.mp hlen)
    subst ht
    have h3 : b = b' := congrArg Prod.fst (Except.ok.inj h)
    rw [← h3]
  | succ n ih =>
    intro toks hlen b x b' x' h hm hpw
    cases toks with
    | nil =>
      have h3 : b = b' := congrArg Prod.fst (Except.ok.inj h)
      rw [← h3]
    | cons flag rest =>
      have hlen1 : rest.length ≤ n := by
        simp only [List.length_cons] at hlen
        omega
      have hm1 : ¬ "--mfcc" ∈ rest := fun hh => hm (List.mem_cons_of_mem _ hh)
      have hpw1 : ¬ "--power" ∈ rest := fun hh => hpw (List.mem_cons_of_mem _ hh)
      rcases parseCmdLoop_cons_cases extras flag rest b x b' x' h with
        ⟨hf, hrec⟩ | ⟨hf, hrec⟩ | ⟨v, rest2, m, hf, hr2, hdd, hrec⟩ |
        ⟨v, rest2, hf, hr2, hdd, hrec⟩ | ⟨v, rest2, hf, hr2, hdd, hrec⟩ |
        ⟨v, rest2, hf, hr2, hdd, hrec⟩ | ⟨v, rest2, hf, hr2, hdd, hrec⟩ |
        ⟨upd, hex, hrec⟩ | ⟨upd, v, rest2, m, hex, hr2, hdd, hrec⟩ |
        ⟨upd, v, rest2, hex, hr2, hdd, hrec⟩ | ⟨upd, v, rest2, hex, hr2, hdd, hrec⟩
      · subst hf; exact absurd (List.mem_cons_self _ _) hm
      · subst hf; exact absurd (List.mem_cons_self _ _) hpw
      · subst hr2
        have hlen2 : rest2.length ≤ n := by
          simp only [List.length_cons] at hlen1
          omega
        exact ih rest2 hlen2 { b with batch_size := m } x b' x' hrec
          (fun hh => hm1 (List.mem_cons_of_mem _ hh))
          (fun hh => hpw1 (List.mem_cons_of_mem _ hh))
      · subst hr2
        have hlen2 : rest2.length ≤ n := by
          simp only [List.length_cons] at hlen1
          omega
        exact ih rest2 hlen2 { b with run_name := v } x b' x' hrec
          (fun hh => hm1 (List.mem_cons_of_mem _ hh))
          (fun hh => hpw1 (List.mem_cons_of_mem _ hh))
      · subst hr2
        have hlen2 : rest2.length ≤ n := by
          simp only [List.length_cons] at hlen1
          omega
        exact ih rest2 hlen2 { b with data_dir := v } x b' x' hrec
          (fun hh => hm1 (List.mem_cons_of_mem _ hh))
          (fun hh => hpw1 (List.mem_cons_of_mem _ hh))
      · subst hr2
        have hlen2 : rest2.length ≤ n := by
          simp only [List.length_cons] at hlen1
          omega
        exact ih rest2 hlen2 { b with train_dir := v } x b' x' hrec
          (fun hh => hm1 (List.mem_cons_of_mem _ hh))
          (fun hh => hpw1 (List.mem_cons_of_mem _ hh))
      · subst hr2
        have hlen2 : rest2.length ≤ n := by
          simp only [List.length_cons] at hlen1
          omega
        exact ih rest2 hlen2 { b with log_dir := v } x b' x' hrec
          (fun hh => hm1 (List.mem_cons_of_mem _ hh))
          (fun hh => hpw1 (List.mem_cons_of_mem _ hh))
      · exact ih rest hlen1 b (upd x) b' x' hrec hm1 hpw1
      · subst hr2
        have hlen2 : rest2.length ≤ n := by
          simp only [List.length_cons] at hlen1
          omega
        exact ih rest2 hlen2 b (upd m x) b' x' hrec
          (fun hh => hm1 (List.mem_cons_of_mem _ hh))
          (fun hh => hpw1 (List.mem_cons_of_mem _ hh))
      · subst hr2
        have hlen2 : rest2.length ≤ n := by
          simp only [List.length_cons] at hlen1
          omega
        exact ih rest2 hlen2 b (upd v x) b' x' hrec
          (fun hh => hm1 (List.mem_cons_of_mem _ hh))
          (fun hh => hpw1 (List.mem_cons_of_mem _ hh))
      · subst hr2
        have hlen2 : rest2.length ≤ n := by
          simp only [List.length_cons] at hlen1
          omega
        exact ih rest2 hlen2 b (upd v x) b' x' hrec
          (fun hh => hm1 (List.mem_cons_of_mem _ hh))
          (fun hh => hpw1 (List.mem_cons_of_mem _ hh))

/-- A parse that mentions neither `--mfcc` nor `--power` leaves
`feature_type` untouched. -/
theorem parseCmdLoop_feature {ε : Type} (extras : String → Option (ExtraSpec ε))
    (toks : List String) (b : BaseOpts) (x : ε) (b' : BaseOpts) (x' : ε)
    (h : parseCmdLoop extras toks b x = .ok (b', x'))
    (hm : ¬ "--mfcc" ∈ toks) (hpw : ¬ "--power" ∈ toks) :
    b'.feature_type = b.feature_type :=
  parseCmdLoop_feature_aux extras toks.length toks le_rfl b x b' x' h hm hpw

/-- Claim C8 counterexample: `--mfcc` and `--power` are NOT mutually
exclusive — an input supplying both is accepted by validation, and the
flag appearing last wins (they are two independent `store_const` actions
on the same dest, not an argparse mutually-exclusive group). -/
theorem feature_flags_cex :
    parse_args ["train", "--mfcc", "--power"] =
      .ok { command := some "train", base := some {}, extra := some (.train {}) } ∧
    parse_args ["train", "--power", "--mfcc"] =
      .ok { command := some "train", base := some { feature_type := "mfcc" },
            extra := some (.train {}) } :=
  ⟨rfl, rfl⟩

/-- Claim C8 amended: supplying both `--mfcc` and `--power` is accepted
(the last occurrence wins); and for every command, when neither flag is
supplied the resolved `feature_type` is the default `"power"`. -/
theorem feature_default (args : List String) (ns : NS) (b : BaseOpts)
    (hp : parse_args args = .ok ns) (hb : ns.base = some b)
    (hm : ¬ "--mfcc" ∈ args) (hpw : ¬ "--power" ∈ args) :
    b.feature_type = "power" := by
  cases args with
  | nil =>
    have h2 : ({} : NS) = ns := Except.ok.inj hp
    rw [← h2] at hb
    exact Option.noConfusion hb
  | cons c rest =>
    have hm1 : ¬ "--mfcc" ∈ rest := fun hh => hm (List.mem_cons_of_mem _ hh)
    have hpw1 : ¬ "--power" ∈ rest := fun hh => hpw (List.mem_cons_of_mem _ hh)
    rcases parse_args_shape c rest ns hp with
      ⟨hc, b2, t, hl, rfl⟩ | ⟨hc, b2, o, hl, rfl⟩ |
      ⟨hc, b2, o, hl, rfl⟩ | ⟨hc, b2, o, hl, rfl⟩
    · have hbb : b2 = b := Option.some.inj hb
      rw [← hbb]
      exact parseCmdLoop_feature trainExtras rest {} {} b2 t hl hm1 hpw1
    · have hbb : b2 = b := Option.some.inj hb
      rw [← hbb]
      exact parseCmdLoop_feature evalExtras rest {} {} b2 o hl hm1 hpw1
    · have hbb : b2 = b := Option.some.inj hb
      rw [← hbb]
      exact parseCmdLoop_feature recordExtras rest {} {} b2 o hl hm1 hpw1
    · have hbb : b2 = b := Option.some.inj hb
      rw [← hbb]
      exact parseCmdLoop_feature searchExtras rest {} {} b2 o hl hm1 hpw1

/-- The namespace parsed from the bare `record` command line. -/
def nsRecord : NS :=
  { command := some "record", base := some {}, extra := some (.record {}) }

/-- Witness for the amended C8 at the concrete command line `record`. -/
theorem feature_default_witness :
    parse_args ["record"] = .ok nsRecord ∧ nsRecord.base = some {} ∧
    ({} : BaseOpts).feature_type = "power" :=
  ⟨rfl, rfl,
   feature_default ["record"] nsRecord {} rfl rfl (by decide) (by decide)⟩

/-! ## Dataset selection of the evaluate subcommand (claim C1) -/

/-- Membership helper: drop the head. -/
theorem not_mem_tail {a flag : String} {rest : List String}
    (h : ¬ a ∈ flag :: rest) : ¬ a ∈ rest :=
  fun hh => h (List.mem_cons_of_mem _ hh)

/-- Membership helper: a member different from the head is in the tail. -/
theorem mem_tail_of_ne {a flag : String} {rest : List String}
    (h : a ∈ flag :: rest) (hne : a ≠ flag) : a ∈ rest := by
  rcases List.mem_cons.mp h with h' | h'
  · exact absurd h' hne
  · exact h'

/-- A token that is not `--`-prefixed differs from any `--`-prefixed
one. -/
theorem ne_of_dashdash_eq_false {v : String} (w : String)
    (hd : isDashDash v = false) (hw : isDashDash w = true) : w ≠ v := by
  intro hh
  rw [hh, hd] at hw
  exact Bool.noConfusion hw

/-- Exhaustive description of the evaluate-specific flag table. -/
theorem evalExtras_cases (flag : String) :
    evalExtras flag = none ∨
    (flag = "--dev" ∧ evalExtras flag =
      some (.constAct fun o => { o with dataset := "dev" })) ∨
    (flag = "--test" ∧ evalExtras flag =
      some (.constAct fun o => { o with dataset := "test" })) ∨
    (flag = "--no-save" ∧ evalExtras flag =
      some (.constAct fun o => { o with should_save := false })) ∨
    (flag = "--epoch-count" ∧ evalExtras flag =
      some (.intAct fun n o => { o with epoch_count := n })) ∨
    (flag = "--language-model" ∧ evalExtras flag =
      some (.strAct fun v o => { o with language_model := some v })) := by
  unfold evalExtras
  split_ifs with g1 g2 g3 g4 g5
  · exact Or.inr (Or.inl ⟨g1, rfl⟩)
  · exact Or.inr (Or.inr (Or.inl ⟨g2, rfl⟩))
  · exact Or.inr (Or.inr (Or.inr (Or.inl ⟨g3, rfl⟩)))
  · exact Or.inr (Or.inr (Or.inr (Or.inr (Or.inl ⟨g4, rfl⟩))))
  · exact Or.inr (Or.inr (Or.inr (Or.inr (Or.inr ⟨g5, rfl⟩))))
  · exact Or.inl rfl

/-- Auxiliary induction for the evaluate loop: how the `dataset` field
evolves.  It can only ever hold its initial value, `"dev"` (set by
`--dev`) or `"test"` (set by `--test`); without `--dev` it cannot become
`"dev"`; without `--test` it cannot become `"test"`; and a `--dev` with
no later `--test` forces `"dev"`. -/
theorem evalLoop_dataset_aux :
    ∀ (n : Nat) (toks : List String), toks.length ≤ n →
      ∀ (b : BaseOpts) (o : EvalOpts) (b' : BaseOpts) (o' : EvalOpts),
        parseCmdLoop evalExtras toks b o = .ok (b', o') →
        (o'.dataset = o.dataset ∨ o'.dataset = "dev" ∨ o'.dataset = "test") ∧
        (¬ "--dev" ∈ toks → (o'.dataset = o.dataset ∨ o'.dataset = "test")) ∧
        (¬ "--test" ∈ toks → (o'.dataset = o.dataset ∨ o'.dataset = "dev")) ∧
        ("--dev" ∈ toks → ¬ "--test" ∈ toks → o'.dataset = "dev") := by
  intro n
  induction n with
  | zero =>
    intro toks hlen b o b' o' h
    have ht : toks = [] := List.length_eq_zero.mp (Nat.le_zero.mp hlen)
    subst ht
    have h3 : o = o' := congrArg Prod.snd (Except.ok.inj h)
    subst h3
    exact ⟨Or.inl rfl, fun _ => Or.inl rfl, fun _ => Or.inl rfl,
      fun hd _ => absurd hd (List.not_mem_nil _)⟩
  | succ n ih =>
    intro toks hlen b o b' o' h
    cases toks with
    | nil =>
      have h3 : o = o' := congrArg Prod.snd (Except.ok.inj h)
      subst h3
      exact ⟨Or.inl rfl, fun _ => Or.inl rfl, fun _ => Or.inl rfl,
        fun hd _ => absurd hd (List.not_mem_nil _)⟩
    | cons flag rest =>
      have hlen1 : rest.length ≤ n := by
        simp only [List.length_cons] at hlen
        omega
      rcases parseCmdLoop_cons_cases evalExtras flag rest b o b' o' h with
        ⟨hf, hrec⟩ | ⟨hf, hrec⟩ | ⟨v, rest2, m, hf, hr2, hdd, hrec⟩ |
        ⟨v, rest2, hf, hr2, hdd, hrec⟩ | ⟨v, rest2, hf, hr2, hdd, hrec⟩ |
        ⟨v, rest2, hf, hr2, hdd, hrec⟩ | ⟨v, rest2, hf, hr2, hdd, hrec⟩ |
        ⟨upd, hex, hrec⟩ | ⟨upd, v, rest2, m, hex, hr2, hdd, hrec⟩ |
        ⟨upd, v, rest2, hex, hr2, hdd, hrec⟩ | ⟨upd, v, rest2, hex, hr2, hdd, hrec⟩
      · -- --mfcc
        subst hf
        obtain ⟨IH1, IH2, IH3, IH4⟩ := ih rest hlen1 _ o b' o' hrec
        refine ⟨IH1, ?_, ?_, ?_⟩
        · intro hnd; exact IH2 (not_mem_tail hnd)
        · intro hnt; exact IH3 (not_mem_tail hnt)
        · intro hdev hnt
          exact IH4 (mem_tail_of_ne hdev (by decide)) (not_mem_tail hnt)
      · -- --power
        subst hf
        obtain ⟨IH1, IH2, IH3, IH4⟩ := ih rest hlen1 _ o b' o' hrec
        refine ⟨IH1, ?_, ?_, ?_⟩
        · intro hnd; exact IH2 (not_mem_tail hnd)
        · intro hnt; exact IH3 (not_mem_tail hnt)
        · intro hdev hnt
          exact IH4 (mem_tail_of_ne hdev (by decide)) (not_mem_tail hnt)
      · -- --batch-size v
        subst hf; subst hr2
        have hlen2 : rest2.length ≤ n := by
          simp only [List.length_cons] at hlen1
          omega
        have hvd : ("--dev" : String) ≠ v := ne_of_dashdash_eq_false _ hdd rfl
        have hvt : ("--test" : String) ≠ v := ne_of_dashdash_eq_false _ hdd rfl
        obtain ⟨IH1, IH2, IH3, IH4⟩ := ih rest2 hlen2 _ o b' o' hrec
        refine ⟨IH1, ?_, ?_, ?_⟩
        · intro hnd; exact IH2 (not_mem_tail (not_mem_tail hnd))
        · intro hnt; exact IH3 (not_mem_tail (not_mem_tail hnt))
        · intro hdev hnt
          exact IH4 (mem_tail_of_ne (mem_tail_of_ne hdev (by decide)) hvd)
            (not_mem_tail (not_mem_tail hnt))
      · -- --run-name v
        subst hf; subst hr2
        have hlen2 : rest2.length ≤ n := by
          simp only [List.length_cons] at hlen1
          omega
        have hvd : ("--dev" : String) ≠ v := ne_of_dashdash_eq_false _ hdd rfl
        obtain ⟨IH1, IH2, IH3, IH4⟩ := ih rest2 hlen2 _ o b' o' hrec
        refine ⟨IH1, ?_, ?_, ?_⟩
        · intro hnd; exact IH2 (not_mem_tail (not_mem_tail hnd))
        · intro hnt; exact IH3 (not_mem_tail (not_mem_tail hnt))
        · intro hdev hnt
          exact IH4 (mem_tail_of_ne (mem_tail_of_ne hdev (by decide)) hvd)
            (not_mem_tail (not_mem_tail hnt))
      · -- --data-dir v
        subst hf; subst hr2
        have hlen2 : rest2.length ≤ n := by
          simp only [List.length_cons] at hlen1
          omega
        have hvd : ("--dev" : String) ≠ v := ne_of_dashdash_eq_false _ hdd rfl
        obtain ⟨IH1, IH2, IH3, IH4⟩ := ih rest2 hlen2 _ o b' o' hrec
        refine ⟨IH1, ?_, ?_, ?_⟩
        · intro hnd; exact IH2 (not_mem_tail (not_mem_tail hnd))
        · intro hnt; exact IH3 (not_mem_tail (not_mem_tail hnt))
        · intro hdev hnt
          exact IH4 (mem_tail_of_ne (mem_tail_of_ne hdev (by decide)) hvd)
            (not_mem_tail (not_mem_tail hnt))
      · -- --train-dir v
        subst hf; subst hr2
        have hlen2 : rest2.length ≤ n := by
          simp only [List.length_cons] at hlen1
          omega
        have hvd : ("--dev" : String) ≠ v := ne_of_dashdash_eq_false _ hdd rfl
        obtain ⟨IH1, IH2, IH3, IH4⟩ := ih rest2 hlen2 _ o b' o' hrec
        refine ⟨IH1, ?_, ?_, ?_⟩
        · intro hnd; exact IH2 (not_mem_tail (not_mem_tail hnd))
        · intro hnt; exact IH3 (not_mem_tail (not_mem_tail hnt))
        · intro hdev hnt
          exact IH4 (mem_tail_of_ne (mem_tail_of_ne hdev (by decide)) hvd)
            (not_mem_tail (not_mem_tail hnt))
      · -- --log-dir v
        subst hf; subst hr2
        have hlen2 : rest2.length ≤ n := by
          simp only [List.length_cons] at hlen1
          omega
        have hvd : ("--dev" : String) ≠ v := ne_of_dashdash_eq_false _ hdd rfl
        obtain ⟨IH1, IH2, IH3, IH4⟩ := ih rest2 hlen2 _ o b' o' hrec
        refine ⟨IH1, ?_, ?_, ?_⟩
        · intro hnd; exact IH2 (not_mem_tail (not_mem_tail hnd))
        · intro hnt; exact IH3 (not_mem_tail (not_mem_tail hnt))
        · intro hdev hnt
          exact IH4 (mem_tail_of_ne (mem_tail_of_ne hdev (by decide)) hvd)
            (not_mem_tail (not_mem_tail hnt))
      · -- a store_const evaluate flag: --dev, --test or --no-save
        rcases evalExtras_cases flag with hnone | ⟨hfl, he⟩ | ⟨hfl, he⟩ |
          ⟨hfl, he⟩ | ⟨hfl, he⟩ | ⟨hfl, he⟩
        · rw [hnone] at hex; exact Option.noConfusion hex
        · -- --dev
          subst hfl
          rw [he] at hex
          injection hex with hex2
          injection hex2 with hupd
          subst hupd
          obtain ⟨IH1, IH2, IH3, IH4⟩ := ih rest hlen1 b _ b' o' hrec
          refine ⟨?_, ?_, ?_, ?_⟩
          · rcases IH1 with h' | h' | h'
            · exact Or.inr (Or.inl h')
            · exact Or.inr (Or.inl h')
            · exact Or.inr (Or.inr h')
          · intro hnd
            exact absurd (List.mem_cons_self _ _) hnd
          · intro hnt
            rcases IH3 (not_mem_tail hnt) with h' | h'
            · exact Or.inr h'
            · exact Or.inr h'
          · intro _ hnt
            rcases IH3 (not_mem_tail hnt) with h' | h'
            · exact h'
            · exact h'
        · -- --test
          subst hfl
          rw [he] at hex
          injection hex with hex2
          injection hex2 with hupd
          subst hupd
          obtain ⟨IH1, IH2, IH3, IH4⟩ := ih rest hlen1 b _ b' o' hrec
          refine ⟨?_, ?_, ?_, ?_⟩
          · rcases IH1 with h' | h' | h'
            · exact Or.inr (Or.inr h')
            · exact Or.inr (Or.inl h')
            · exact Or.inr (Or.inr h')
          · intro hnd
            rcases IH2 (not_mem_tail hnd) with h' | h'
            · exact Or.inr h'
            · exact Or.inr h'
          · intro hnt
            exact absurd (List.mem_cons_self _ _) hnt
          · intro _ hnt
            exact absurd (List.mem_cons_self _ _) hnt
        · -- --no-save
          subst hfl
          rw [he] at hex
          injection hex with hex2
          injection hex2 with hupd
          subst hupd
          obtain ⟨IH1, IH2, IH3, IH4⟩ := ih rest hlen1 b _ b' o' hrec
          refine ⟨IH1, ?_, ?_, ?_⟩
          · intro hnd; exact IH2 (not_mem_tail hnd)
          · intro hnt; exact IH3 (not_mem_tail hnt)
          · intro hdev hnt
            exact IH4 (mem_tail_of_ne hdev (by decide)) (not_mem_tail hnt)
        · rw [he] at hex
          injection hex with hex2
          exact ExtraSpec.noConfusion hex2
        · rw [he] at hex
          injection hex with hex2
          exact ExtraSpec.noConfusion hex2
      · -- an int-valued evaluate flag: --epoch-count
        rcases evalExtras_cases flag with hnone | ⟨hfl, he⟩ | ⟨hfl, he⟩ |
          ⟨hfl, he⟩ | ⟨hfl, he⟩ | ⟨hfl, he⟩
        · rw [hnone] at hex; exact Option.noConfusion hex
        · rw [he] at hex; injection hex with hex2; exact ExtraSpec.noConfusion hex2
        · rw [he] at hex; injection hex with hex2; exact ExtraSpec.noConfusion hex2
        · rw [he] at hex; injection hex with hex2; exact ExtraSpec.noConfusion hex2
        · -- --epoch-count v
          subst hfl
          rw [he] at hex
          injection hex with hex2
          injection hex2 with hupd
          subst hupd
          subst hr2
          have hlen2 : rest2.length ≤ n := by
            simp only [List.length_cons] at hlen1
            omega
          have hvd : ("--dev" : String) ≠ v := ne_of_dashdash_eq_false _ hdd rfl
          obtain ⟨IH1, IH2, IH3, IH4⟩ := ih rest2 hlen2 b _ b' o' hrec
          refine ⟨IH1, ?_, ?_, ?_⟩
          · intro hnd; exact IH2 (not_mem_tail (not_mem_tail hnd))
          · intro hnt; exact IH3 (not_mem_tail (not_mem_tail hnt))
          · intro hdev hnt
            exact IH4 (mem_tail_of_ne (mem_tail_of_ne hdev (by decide)) hvd)
              (not_mem_tail (not_mem_tail hnt))
        · rw [he] at hex; injection hex with hex2; exact ExtraSpec.noConfusion hex2
      · -- a string-valued evaluate flag: --language-model
        rcases evalExtras_cases flag with hnone | ⟨hfl, he⟩ | ⟨hfl, he⟩ |
          ⟨hfl, he⟩ | ⟨hfl, he⟩ | ⟨hfl, he⟩
        · rw [hnone] at hex; exact Option.noConfusion hex
        · rw [he] at hex; injection hex with hex2; exact ExtraSpec.noConfusion hex2
        · rw [he] at hex; injection hex with hex2; exact ExtraSpec.noConfusion hex2
        · rw [he] at hex; injection hex with hex2; exact ExtraSpec.noConfusion hex2
        · rw [he] at hex; injection hex with hex2; exact ExtraSpec.noConfusion hex2
        · -- --language-model v
          subst hfl
          rw [he] at hex
          injection hex with hex2
          injection hex2 with hupd
          subst hupd
          subst hr2
          have hlen2 : rest2.length ≤ n := by
            simp only [List.length_cons] at hlen1
            omega
          have hvd : ("--dev" : String) ≠ v := ne_of_dashdash_eq_false _ hdd rfl
          obtain ⟨IH1, IH2, IH3, IH4⟩ := ih rest2 hlen2 b _ b' o' hrec
          refine ⟨IH1, ?_, ?_, ?_⟩
          · intro hnd; exact IH2 (not_mem_tail (not_mem_tail hnd))
          · intro hnt; exact IH3 (not_mem_tail (not_mem_tail hnt))
          · intro hdev hnt
            exact IH4 (mem_tail_of_ne (mem_tail_of_ne hdev (by decide)) hvd)
              (not_mem_tail (not_mem_tail hnt))
      · -- no float-valued evaluate flag exists
        rcases evalExtras_cases flag with hnone | ⟨hfl, he⟩ | ⟨hfl, he⟩ |
          ⟨hfl, he⟩ | ⟨hfl, he⟩ | ⟨hfl, he⟩
        · rw [hnone] at hex; exact Option.noConfusion hex
        · rw [he] at hex; injection hex with hex2; exact ExtraSpec.noConfusion hex2
        · rw [he] at hex; injection hex with hex2; exact ExtraSpec.noConfusion hex2
        · rw [he] at hex; injection hex with hex2; exact ExtraSpec.noConfusion hex2
        · rw [he] at hex; injection hex with hex2; exact ExtraSpec.noConfusion hex2
        · rw [he] at hex; injection hex with hex2; exact ExtraSpec.noConfusion hex2

/-- Claim C1: on every parsed command line the derived `run_type` follows
the fixed rule — `train` ↦ `"train"`, `record` ↦ `"record"`, `evaluate`
↦ the chosen dataset (`"dev"` exactly when `--dev` is given and not
overridden by `--test`, the default `"test"` when `--dev` is absent),
and any other (`search`) or absent command ↦ `"other"`. -/
theorem run_type_derivation (args : List String) (ns : NS)
    (hp : parse_args args = .ok ns) :
    (ns.command = some "train" → deriveRunType ns = .ok "train") ∧
    (ns.command = some "record" → deriveRunType ns = .ok "record") ∧
    (ns.command = some "search" → deriveRunType ns = .ok "other") ∧
    (ns.command = none → deriveRunType ns = .ok "other") ∧
    (ns.command = some "evaluate" →
      ∃ o, ns.extra = some (CmdOpts.evaluate o) ∧
        deriveRunType ns = .ok o.dataset ∧
        (o.dataset = "dev" ∨ o.dataset = "test") ∧
        (¬ "--dev" ∈ args → o.dataset = "test") ∧
        ("--dev" ∈ args → ¬ "--test" ∈ args → o.dataset = "dev")) := by
  cases args with
  | nil =>
    have h2 : ({} : NS) = ns := Except.ok.inj hp
    subst h2
    exact ⟨fun hh => Option.noConfusion hh, fun hh => Option.noConfusion hh,
      fun hh => Option.noConfusion hh, fun _ => rfl,
      fun hh => Option.noConfusion hh⟩
  | cons c rest =>
    rcases parse_args_shape c rest ns hp with
      ⟨hc, b2, t, hl, rfl⟩ | ⟨hc, b2, o, hl, rfl⟩ |
      ⟨hc, b2, o, hl, rfl⟩ | ⟨hc, b2, o, hl, rfl⟩
    · exact ⟨fun _ => rfl,
        fun hh => absurd (Option.some.inj hh) (by decide),
        fun hh => absurd (Option.some.inj hh) (by decide),
        fun hh => Option.noConfusion hh,
        fun hh => absurd (Option.some.inj hh) (by decide)⟩
    · subst hc
      obtain ⟨IH1, IH2, IH3, IH4⟩ :=
        evalLoop_dataset_aux rest.length rest le_rfl {} {} b2 o hl
      refine ⟨fun hh => absurd (Option.some.inj hh) (by decide),
        fun hh => absurd (Option.some.inj hh) (by decide),
        fun hh => absurd (Option.some.inj hh) (by decide),
        fun hh => Option.noConfusion hh,
        fun _ => ⟨o, rfl, rfl, ?_, ?_, ?_⟩⟩
      · rcases IH1 with h' | h' | h'
        · exact Or.inr h'
        · exact Or.inl h'
        · exact Or.inr h'
      · intro hnd
        rcases IH2 (not_mem_tail hnd) with h' | h'
        · exact h'
        · exact h'
      · intro hdev hnt
        exact IH4 (mem_tail_of_ne hdev (by decide)) (not_mem_tail hnt)
    · exact ⟨fun hh => absurd (Option.some.inj hh) (by decide),
        fun _ => rfl,
        fun hh => absurd (Option.some.inj hh) (by decide),
        fun hh => Option.noConfusion hh,
        fun hh => absurd (Option.some.inj hh) (by decide)⟩
    · exact ⟨fun hh => absurd (Option.some.inj hh) (by decide),
        fun hh => absurd (Option.some.inj hh) (by decide),
        fun _ => rfl,
        fun hh => Option.noConfusion hh,
        fun hh => absurd (Option.some.inj hh) (by decide)⟩

/-- The namespace parsed from `evaluate --dev`. -/
def nsEvalDev : NS :=
  { command := some "evaluate", base := some {},
    extra := some (.evaluate { dataset := "dev" }) }

/-- Witness for C1 at the concrete command line `evaluate --dev`, plus
the default-dataset case `evaluate` evaluated concretely. -/
theorem run_type_derivation_witness :
    (∃ o, nsEvalDev.extra = some (CmdOpts.evaluate o) ∧
      deriveRunType nsEvalDev = .ok o.dataset ∧
      (o.dataset = "dev" ∨ o.dataset = "test") ∧
      (¬ "--dev" ∈ (["evaluate", "--dev"] : List String) → o.dataset = "test") ∧
      ("--dev" ∈ (["evaluate", "--dev"] : List String) →
        ¬ "--test" ∈ (["evaluate", "--dev"] : List String) → o.dataset = "dev")) ∧
    deriveRunType nsEvalDev = .ok "dev" ∧
    parse_args ["evaluate"] =
      .ok { command := some "evaluate", base := some {},
            extra := some (.evaluate {}) } ∧
    deriveRunType { command := some "evaluate", base := some {},
                    extra := some (.evaluate {}) } = .ok "test" :=
  ⟨(run_type_derivation ["evaluate", "--dev"] nsEvalDev rfl).2.2.2.2 rfl,
   rfl, rfl, rfl⟩

end SpeechT
